import Mathlib

/-!
Verification of the Simple-shell process-execution and job-control core
(`src/shell.c`), as a shallow embedding.

The job table (`process_list` in the C source) is a singly linked list of
`struct process` nodes; we embed it as a `List Proc` whose head corresponds
to the head of the linked list (insertion is a prepend).  Pointer-level
behaviour matters only for `execute_exit`, which is embedded separately with
an explicit heap.  A use-after-free read is concretised as reading the last
value the cell held before `free` (the freed cell's bytes are retained).
-/

namespace SimpleShell

/-- Embeds `struct process` (shell.c:47-52): command name, OS process id,
and the display index `list_id` (rewritten by `process_print_list`). -/
structure Proc where
  name : String
  pid : Int
  listId : Int
deriving DecidableEq, Repr

/-- Embeds `process_add` (shell.c:549-568): allocates a node with
`list_id = -1` and prepends it to the list.  The `bg_flag` parameter is
accepted and ignored, as in the source.  The `malloc` failure path (return
-1, list unchanged) is an environment event outside the embedding; the
successful-allocation behaviour is modelled.  Returns the C result code and
the new table. -/
def process_add (nm : String) (pid : Int) (bg_flag : Int) (t : List Proc) :
    Int × List Proc :=
  (0, { name := nm, pid := pid, listId := -1 } :: t)

/-- Embeds the traversal loop of `process_remove_from_list`
(shell.c:585-605): unlinks and frees the first node whose `process_id`
matches; leaves the list unchanged when no node matches. -/
def remove_loop (pid : Int) : List Proc → List Proc
  | [] => []
  | node :: rest =>
    if node.pid = pid then rest else node :: remove_loop pid rest

/-- Embeds `process_remove_from_list` (shell.c:575-608).  On an empty list
it prints `ERROR_NO_SUCH_PROC` and returns -1.  On a non-empty list it
returns 0 whether or not a matching node was found (the final `return 0`
at shell.c:607 is reached in the no-match case as well). -/
def process_remove_from_list (pid : Int) (t : List Proc) : Int × List Proc :=
  match t with
  | [] => (-1, [])
  | _ :: _ => (0, remove_loop pid t)

/-- Embeds the search loop of `process_bring_to_fg` (shell.c:626-632):
finds the first node whose `list_id` equals the sought id. -/
def find_fg_loop (id : Int) : List Proc → Option Proc
  | [] => none
  | node :: rest =>
    if node.listId = id then some node else find_fg_loop id rest

/-- Embeds `process_bring_to_fg` (shell.c:617-635): on an empty list prints
an error and returns -1; otherwise searches by `list_id`, removes the found
node via `process_remove_from_list` on its pid, and returns that pid, or -1
when no node matches.  (The C source reads `node->process_id` again after
the node was freed; the read is concretised as the retained value.) -/
def process_bring_to_fg (id : Int) (t : List Proc) : Int × List Proc :=
  match t with
  | [] => (-1, [])
  | _ :: _ =>
    match find_fg_loop id t with
    | some node => (node.pid, (process_remove_from_list node.pid t).2)
    | none => (-1, t)

/-- Embeds the loop of `process_print_list` (shell.c:644-648): walking the
list with counter `list_id` starting at `i`, it emits one
`(index, name, pid)` line per node and rewrites each node's `list_id` to
the emitted index.  Returns the printed lines and the renumbered list. -/
def print_loop (i : Int) : List Proc → List (Int × String × Int) × List Proc
  | [] => ([], [])
  | node :: rest =>
    let tail := print_loop (i + 1) rest
    ((i, node.name, node.pid) :: tail.1, { node with listId := i } :: tail.2)

/-- Embeds `process_print_list` (shell.c:641-649); `LIST_ID_FIRST_VAL = 0`
(shell.c:26). -/
def process_print_list (t : List Proc) : List (Int × String × Int) × List Proc :=
  print_loop 0 t

/-- Pids of the records currently in the table, in list order. -/
def tablePids (t : List Proc) : List Int :=
  t.map Proc.pid

/-- Embeds `process_terminate_fg` (shell.c:655-660): refuses to act when
the given pid is the shell's own id; otherwise issues
`kill(process_id, SIGKILL)`, represented as `some process_id`. -/
def process_terminate_fg (shell_id : Int) (process_id : Int) : Option Int :=
  if shell_id = process_id then none else some process_id

/-- Embeds the SIGINT branch of `signal_handler` (shell.c:96-99): the
handler calls `process_terminate_fg(getpid())`, so the pid it passes is the
pid of the process the handler runs in. -/
def signal_handler_sigint (shell_id : Int) (current_pid : Int) : Option Int :=
  process_terminate_fg shell_id current_pid

/-- Outcome of C library calls that dereference a possibly-null pointer:
`nullDeref` marks the undefined behaviour of reading through `NULL`. -/
inductive CErr where
  | nullDeref
deriving DecidableEq, Repr

/-- Embeds the digit-accumulation phase of `strtol(s, NULL, 10)`. -/
def strtol_digits : List Char → Int → Int
  | [], acc => acc
  | c :: cs, acc =>
    if c.isDigit then strtol_digits cs (acc * 10 + ((c.toNat : Int) - 48))
    else acc

/-- Models `strtol(s, NULL, 10)` on a non-null string: skips leading
whitespace, consumes an optional sign, then a decimal-digit prefix. -/
def strtol_dec (s : String) : Int :=
  match s.data.dropWhile Char.isWhitespace with
  | '-' :: cs => - strtol_digits cs 0
  | '+' :: cs => strtol_digits cs 0
  | cs => strtol_digits cs 0

/-- Where control ends up in a forked child of `execute`:
`returned v` means the child executed a C `return v` inside `execute` and
so falls back into the caller's control flow (the shell's read loop);
`replaced cmd argv` means `execvp` succeeded and the child's image is now
`cmd`, never returning. -/
inductive ChildResult where
  | returned (v : Int)
  | replaced (cmd : String) (argv : List String)
deriving DecidableEq, Repr

/-- Embeds the child branch of `execute` (shell.c:240-257 and the final
`return 0` at shell.c:286).  `execOk cmd` abstracts whether `execvp` finds
and launches the binary.  The argument vector is the C `params` array up to
its `NULL` terminator, so `params.get? 1 = none` models `params[1] == NULL`;
`strtol(params[1], NULL, 10)` on a null `params[1]` is a null dereference.
If the command is `"wait"` or `"sleep"`, the child sleeps and then executes
`return 0` (shell.c:245), re-entering the caller's control flow; on `execvp`
failure it prints an error and likewise reaches `return 0` (shell.c:286). -/
def execute_child (execOk : String → Bool) (command : String)
    (params : List String) : Except CErr ChildResult :=
  if command = "wait" ∨ command = "sleep" then
    match params.get? 1 with
    | none => .error .nullDeref
    | some _ => .ok (.returned 0)
  else if execOk command then .ok (.replaced command params)
  else .ok (.returned 0)

/-- Effect of a built-in command, as dispatched by `execute_built_ins`. -/
inductive BuiltinEffect where
  | echoOut (ws : List String)
  | cd (path : Option String)
  | pwd
  | exitShell
  | fg (id : Int)
  | jobs
deriving DecidableEq, Repr

/-- Embeds `execute_built_ins` (shell.c:425-453).  `params` is the argument
vector up to its `NULL` terminator, with `params[0] == command`.  Returns
`ok none` when no built-in matched (the C `return 1`), and `ok (some e)`
when built-in `e` was dispatched (the C `return 0`).  The `fg` branch
evaluates `strtol(params[1], NULL, 10)` (shell.c:444); when
`params[1] == NULL` this is a null dereference. -/
def execute_built_ins (command : String) (params : List String) :
    Except CErr (Option BuiltinEffect) :=
  if command = "echo" then .ok (some (.echoOut (params.drop 1)))
  else if command = "cd" then .ok (some (.cd (params.get? 1)))
  else if command = "pwd" then .ok (some .pwd)
  else if command = "exit" then .ok (some .exitShell)
  else if command = "fg" then
    match params.get? 1 with
    | none => .error .nullDeref
    | some s => .ok (some (.fg (strtol_dec s)))
  else if command = "jobs" then .ok (some .jobs)
  else .ok none

/-- Embeds the argument-splitting loop of `execute_pipe` (shell.c:309-316):
starting at `args + 1`, scan for the token `"|"`, overwrite it with `NULL`
(ending the first command's vector) and leave `pipe_args` at the token
after it.  Returns `(cmd1 vector, cmd2 vector)`, or `none` when no `"|"`
token exists (the C loop would then run past the array). -/
def split_pipe_scan : List String → Option (List String × List String)
  | [] => none
  | x :: xs =>
    if x = "|" then some ([], xs)
    else (split_pipe_scan xs).map (fun p => (x :: p.1, p.2))

/-- Splits a full `execute_pipe` argument vector at the first `"|"` token
after position 0 (shell.c:309-316). -/
def split_pipe_args (args : List String) :
    Option (List String × List String) :=
  match args with
  | [] => none
  | a0 :: rest => (split_pipe_scan rest).map (fun p => (a0 :: p.1, p.2))

/-- Observable steps taken by the intermediate pipeline process P1
(shell.c:344-374), in program order. -/
inductive PEvent where
  | closeFd (fd : Nat)
  | dupToStdin (fd : Nat)
  | waitFor (pid : Int)
  | register (nm : String) (pid : Int)
  | execImage (cmd : String)
deriving DecidableEq, Repr

/-- Embeds the P1 branch of `execute_pipe` (shell.c:344-374): the process
that forked P2 closes the pipe's write end, redirects stdin to the read
end, blocks in `waitpid` on P2 (`pid2`, running the first command), then —
if `bg_flag` — calls `process_add(*pipe_args, process_id2, bg_flag)`
(shell.c:359), i.e. registers the second command's name with P2's pid, and
finally replaces its own image with the second command via
`execvp(*pipe_args, pipe_args)` (shell.c:366).  Returns the ordered event
trace and the job table after the branch; `none` when the vector has no
`"|"` token or nothing after it (`*pipe_args == NULL`). -/
def execute_pipe_p1 (args : List String) (pid2 : Int) (bg_flag : Int)
    (pipeR pipeW : Nat) (t : List Proc) :
    Option (List PEvent × List Proc) :=
  (split_pipe_args args).bind (fun p =>
    (p.2.head?).map (fun cmd2Name =>
      let t1 := if bg_flag ≠ 0 then (process_add cmd2Name pid2 bg_flag t).2 else t
      ([PEvent.closeFd pipeW, PEvent.dupToStdin pipeR, PEvent.waitFor pid2]
        ++ (if bg_flag ≠ 0 then [PEvent.register cmd2Name pid2] else [])
        ++ [PEvent.execImage cmd2Name], t1)))

/-- Pointer-level node mirroring `struct process` for the heap embedding:
`next` is the address of the next node (`none` = `NULL`). -/
structure HNode where
  next : Option Nat
  name : String
  pid : Int
  listId : Int
deriving DecidableEq, Repr

/-- Pointer-level shell state: `cells` maps each address ever allocated to
the last value written there (retained after `free`, concretising
use-after-free reads as reading the stale bytes); `freed` records every
`free` call in order (a repeated address is a double free); `processList`
is the global `process_list` head pointer. -/
structure ShellHeap where
  cells : List (Nat × HNode)
  freed : List Nat
  processList : Option Nat
deriving DecidableEq, Repr

/-- Reads the node at address `a` (the last value written there). -/
def readCell (cells : List (Nat × HNode)) (a : Nat) : Option HNode :=
  (cells.find? (fun c => c.1 = a)).map (fun c => c.2)

/-- Overwrites the node at address `a`. -/
def writeCell (cells : List (Nat × HNode)) (a : Nat) (nd : HNode) :
    List (Nat × HNode) :=
  cells.map (fun c => if c.1 = a then (a, nd) else c)

/-- Pointer-level embedding of the traversal loop of
`process_remove_from_list` (shell.c:585-605): `prev`/`node` are the two
cursor pointers; on a match the node is unlinked (head case updates
`process_list`, otherwise `prev->next` is rewritten) and freed.  Reaching
the end without a match returns 0 (shell.c:607).  `fuel` bounds the walk
(aliased lists need not be finite); `none` = fuel exhausted or a read from
a never-allocated address, neither of which occurs in the traces proved
about below. -/
def heap_remove_loop : Nat → Int → Option Nat → Option Nat → ShellHeap →
    Option (Int × ShellHeap)
  | 0, _, _, _, _ => none
  | fuel + 1, pid, prev, nodeAddr, st =>
    match nodeAddr with
    | none => some (0, st)
    | some a =>
      match readCell st.cells a with
      | none => none
      | some nd =>
        if nd.pid = pid then
          match prev with
          | none =>
            some (0, { st with processList := nd.next, freed := st.freed ++ [a] })
          | some pa =>
            match readCell st.cells pa with
            | none => none
            | some pnd =>
              some (0, { st with
                cells := writeCell st.cells pa { pnd with next := nd.next },
                freed := st.freed ++ [a] })
        else heap_remove_loop fuel pid (some a) nd.next st

/-- Pointer-level embedding of `process_remove_from_list` (shell.c:575-608):
empty list prints an error and returns -1, otherwise runs the traversal
from the `process_list` head. -/
def heap_process_remove (fuel : Nat) (pid : Int) (st : ShellHeap) :
    Option (Int × ShellHeap) :=
  match st.processList with
  | none => some (-1, st)
  | some _ => heap_remove_loop fuel pid none st.processList st

/-- Pointer-level embedding of the teardown loop of `execute_exit`
(shell.c:498-503): `node` starts at `process_list`; each iteration calls
`process_remove_from_list(process_list->process_id)`, then restores
`process_list = node` and advances `node = node->next`.  Reads through
`node` and `process_list` after `free` return the retained cell value.
`none` = fuel exhausted, a read from a never-allocated address, or
`process_list == NULL` at the dereference `process_list->process_id`. -/
def execute_exit_loop : Nat → Option Nat → ShellHeap → Option ShellHeap
  | 0, _, _ => none
  | fuel + 1, node, st =>
    match node with
    | none => some st
    | some a =>
      match st.processList with
      | none => none
      | some pla =>
        match readCell st.cells pla with
        | none => none
        | some plnd =>
          match heap_process_remove (st.cells.length + 1) plnd.pid st with
          | none => none
          | some r =>
            let st3 : ShellHeap := { r.2 with processList := some a }
            match readCell st3.cells a with
            | none => none
            | some nd => execute_exit_loop fuel nd.next st3

/-- Pointer-level embedding of `execute_exit` (shell.c:495-507) up to the
final `kill(0, SIGKILL)`: runs the teardown loop from
`node = process_list`. -/
def execute_exit_heap (fuel : Nat) (st : ShellHeap) : Option ShellHeap :=
  execute_exit_loop fuel st.processList st

/-- One step of a job-table history: the two mutations the main loop and
the SIGCHLD reaper perform on the table. -/
inductive TableOp where
  | insert (nm : String) (pid : Int)
  | removePid (pid : Int)
deriving DecidableEq, Repr

/-- Applies one table operation: `insert` is `process_add`, `removePid` is
`process_remove_from_list` (result code discarded, as the reaper does). -/
def apply_table_op (t : List Proc) : TableOp → List Proc
  | .insert nm pid => (process_add nm pid 1 t).2
  | .removePid pid => (process_remove_from_list pid t).2

/-- Applies a sequence of table operations in order. -/
def apply_table_ops (t : List Proc) (ops : List TableOp) : List Proc :=
  ops.foldl apply_table_op t

/-- Holds when every `insert` in the sequence arrives with a pid that is
not already carried by a live record at that point (pairwise-distinct pids
among live records, the OS guarantee for concurrently live children). -/
def ops_pids_fresh : List Proc → List TableOp → Bool
  | _, [] => true
  | t, TableOp.insert nm pid :: rest =>
    !(decide (pid ∈ tablePids t))
      && ops_pids_fresh (apply_table_op t (.insert nm pid)) rest
  | t, TableOp.removePid pid :: rest =>
    ops_pids_fresh (apply_table_op t (.removePid pid)) rest

/-- Concrete two-job table for the `execute_exit` teardown trace: address 0
holds the newer record (pid 5) whose `next` is address 1 (pid 7), and
`process_list` points at address 0. -/
def exit_two_job_table : ShellHeap :=
  { cells := [(0, { next := some 1, name := "a", pid := 5, listId := -1 }),
              (1, { next := none, name := "b", pid := 7, listId := -1 })],
    freed := [],
    processList := some 0 }

/-- Removal never adds records: the traversal loop of
`process_remove_from_list` yields a sublist of its input. -/
theorem remove_loop_sublist (pid : Int) (t : List Proc) :
    List.Sublist (remove_loop pid t) t := by
  induction t with
  | nil => exact List.Sublist.refl _
  | cons a l ih =>
    rw [remove_loop]
    by_cases h : a.pid = pid
    · rw [if_pos h]
      exact List.Sublist.cons a (List.Sublist.refl l)
    · rw [if_neg h]
      exact List.Sublist.cons₂ a ih

/-- The table after `process_remove_from_list` is a sublist of the table
before. -/
theorem remove_result_sublist (pid : Int) (t : List Proc) :
    List.Sublist (process_remove_from_list pid t).2 t := by
  cases t with
  | nil => exact List.Sublist.refl _
  | cons a l => exact remove_loop_sublist pid (a :: l)

/-- Applying a whole operation sequence is folding single operations. -/
theorem apply_table_ops_cons (t : List Proc) (op : TableOp)
    (rest : List TableOp) :
    apply_table_ops t (op :: rest) = apply_table_ops (apply_table_op t op) rest :=
  rfl

/-- Freshness of a concatenated history gives freshness of its prefix. -/
theorem ops_pids_fresh_append (pre suf : List TableOp) : ∀ t : List Proc,
    ops_pids_fresh t (pre ++ suf) = true → ops_pids_fresh t pre = true := by
  induction pre with
  | nil => intro t _; rfl
  | cons op rest ih =>
    intro t h
    cases op with
    | insert nm pid =>
      rw [List.cons_append, ops_pids_fresh] at h
      rw [ops_pids_fresh]
      rw [Bool.and_eq_true] at h
      obtain ⟨h1, h2⟩ := h
      rw [Bool.and_eq_true]
      exact ⟨h1, ih (apply_table_op t (.insert nm pid)) h2⟩
    | removePid pid =>
      rw [List.cons_append, ops_pids_fresh] at h
      rw [ops_pids_fresh]
      exact ih (apply_table_op t (.removePid pid)) h

/-- Distinct live pids are preserved by every fresh-pid operation
sequence. -/
theorem nodup_after_ops (ops : List TableOp) : ∀ t : List Proc,
    (tablePids t).Nodup → ops_pids_fresh t ops = true →
    (tablePids (apply_table_ops t ops)).Nodup := by
  induction ops with
  | nil =>
    intro t h _
    simpa [apply_table_ops] using h
  | cons op rest ih =>
    intro t h hv
    rw [apply_table_ops_cons]
    cases op with
    | insert nm pid =>
      rw [ops_pids_fresh] at hv
      rw [Bool.and_eq_true] at hv
      obtain ⟨h1, h2⟩ := hv
      have hfresh : pid ∉ tablePids t := by simpa using h1
      refine ih _ ?_ h2
      have e : tablePids (apply_table_op t (TableOp.insert nm pid))
          = pid :: tablePids t := rfl
      rw [e, List.nodup_cons]
      exact ⟨hfresh, h⟩
    | removePid pid =>
      rw [ops_pids_fresh] at hv
      refine ih _ ?_ hv
      exact List.Nodup.sublist
        (List.Sublist.map Proc.pid (remove_result_sublist pid t)) h

/-- The pids printed by the enumeration loop are exactly the pids of the
walked records, in order. -/
theorem print_loop_fst_pids (t : List Proc) : ∀ i : Int,
    (print_loop i t).1.map (fun x => x.2.2) = tablePids t := by
  induction t with
  | nil => intro i; rfl
  | cons a l ih =>
    intro i
    have h := ih (i + 1)
    simp only [print_loop, List.map_cons, tablePids, List.map] at h ⊢
    rw [h]

/-- Enumeration rewrites each record's `list_id` to its position offset by
the starting counter and changes nothing else. -/
theorem print_loop_snd_get (t : List Proc) : ∀ (i : Int) (k : Nat) (p : Proc),
    t.get? k = some p →
    (print_loop i t).2.get? k = some { p with listId := i + (k : Int) } := by
  induction t with
  | nil => intro i k p h; simp at h
  | cons a l ih =>
    intro i k p h
    cases k with
    | zero =>
      simp only [List.get?] at h
      cases h
      simp [print_loop]
    | succ k =>
      simp only [List.get?] at h
      have h2 := ih (i + 1) k p h
      simp only [print_loop, List.get?]
      rw [h2]
      have e : i + (((k + 1 : Nat)) : Int) = (i + 1) + (k : Int) := by
        push_cast
        ring
      rw [e]

/-- Enumeration preserves the length of the table. -/
theorem print_loop_snd_length (t : List Proc) : ∀ i : Int,
    (print_loop i t).2.length = t.length := by
  induction t with
  | nil => intro i; rfl
  | cons a l ih =>
    intro i
    simp only [print_loop, List.length_cons]
    rw [ih (i + 1)]

/-- Enumeration preserves the pids of the table, in order. -/
theorem print_loop_snd_pids (t : List Proc) : ∀ i : Int,
    tablePids (print_loop i t).2 = tablePids t := by
  induction t with
  | nil => intro i; rfl
  | cons a l ih =>
    intro i
    have h := ih (i + 1)
    simp only [print_loop, tablePids, List.map] at h ⊢
    rw [h]

/-- After enumeration from counter `i`, searching for display index
`i + k` finds exactly the renumbered record at position `k`. -/
theorem print_loop_find (t : List Proc) : ∀ (i : Int) (k : Nat) (p : Proc),
    t.get? k = some p →
    find_fg_loop (i + (k : Int)) (print_loop i t).2
      = some { p with listId := i + (k : Int) } := by
  induction t with
  | nil => intro i k p h; simp at h
  | cons a l ih =>
    intro i k p h
    cases k with
    | zero =>
      simp only [List.get?] at h
      cases h
      simp [print_loop, find_fg_loop]
    | succ k =>
      simp only [List.get?] at h
      have h2 := ih (i + 1) k p h
      have e : i + (((k + 1 : Nat)) : Int) = (i + 1) + (k : Int) := by
        push_cast
        ring
      simp only [print_loop, find_fg_loop]
      rw [if_neg (by push_cast; omega)]
      rw [e]
      exact h2

/-- After enumeration from counter `i`, searching for a display index that
was assigned to no position comes back empty. -/
theorem print_loop_find_none (t : List Proc) : ∀ (i idx : Int),
    (∀ k : Nat, k < t.length → idx ≠ i + (k : Int)) →
    find_fg_loop idx (print_loop i t).2 = none := by
  induction t with
  | nil => intro i idx _; rfl
  | cons a l ih =>
    intro i idx h
    simp only [print_loop, find_fg_loop]
    rw [if_neg]
    · apply ih (i + 1)
      intro k hk
      have h2 := h (k + 1) (by simpa using Nat.succ_lt_succ hk)
      intro e
      apply h2
      rw [e]
      push_cast
      ring
    · have h0 := h 0 (by simp)
      intro e
      apply h0
      rw [← e]
      simp

/-- In a table with pairwise-distinct pids, removing by the pid of the
record at position `k` deletes exactly that position. -/
theorem remove_loop_get_eraseIdx (l : List Proc) : ∀ (k : Nat) (p : Proc)
    (pd : Int), l.get? k = some p → p.pid = pd → (tablePids l).Nodup →
    remove_loop pd l = l.eraseIdx k := by
  induction l with
  | nil => intro k p pd h; simp at h
  | cons a t ih =>
    intro k p pd h hpd hnd
    rw [tablePids, List.map, List.nodup_cons] at hnd
    cases k with
    | zero =>
      simp only [List.get?] at h
      cases h
      rw [remove_loop, if_pos hpd, List.eraseIdx]
    | succ k =>
      simp only [List.get?] at h
      have hmem : p.pid ∈ t.map Proc.pid := by
        have hpmem : p ∈ t := by
          have := List.get?_eq_some.mp h
          obtain ⟨hk, hget⟩ := this
          rw [← hget]
          exact t.get_mem k hk
        exact List.mem_map_of_mem Proc.pid hpmem
      have hne : a.pid ≠ pd := by
        intro e
        apply hnd.1
        rw [e, ← hpd]
        exact hmem
      rw [remove_loop, if_neg hne, List.eraseIdx]
      rw [ih k p pd h hpd hnd.2]

/-- When the display-index search succeeds on a non-empty table,
`process_bring_to_fg` removes the found record's pid and returns it. -/
theorem bring_to_fg_found (id : Int) (t : List Proc) (node : Proc)
    (h : t ≠ []) (hf : find_fg_loop id t = some node) :
    process_bring_to_fg id t
      = (node.pid, (process_remove_from_list node.pid t).2) := by
  cases t with
  | nil => exact absurd rfl h
  | cons a l =>
    show (match find_fg_loop id (a :: l) with
      | some node => (node.pid, (process_remove_from_list node.pid (a :: l)).2)
      | none => (-1, a :: l)) = _
    rw [hf]

/-- When the display-index search fails on a non-empty table,
`process_bring_to_fg` returns -1 and mutates nothing. -/
theorem bring_to_fg_not_found (id : Int) (t : List Proc) (h : t ≠ [])
    (hf : find_fg_loop id t = none) :
    process_bring_to_fg id t = (-1, t) := by
  cases t with
  | nil => exact absurd rfl h
  | cons a l =>
    show (match find_fg_loop id (a :: l) with
      | some node => (node.pid, (process_remove_from_list node.pid (a :: l)).2)
      | none => (-1, a :: l)) = _
    rw [hf]

/-- `process_remove_from_list` on a non-empty table returns 0 and the
traversal result. -/
theorem remove_ne_nil (pid : Int) (t : List Proc) (h : t ≠ []) :
    process_remove_from_list pid t = (0, remove_loop pid t) := by
  cases t with
  | nil => exact absurd rfl h
  | cons a l => rfl

/-- Claim C1: immediately after `process_print_list` renumbers a table with
pairwise-distinct pids, position `k` holds the record renumbered to display
index `k`; calling `process_bring_to_fg` with any assigned index `k`
returns that record's pid and removes exactly that record; and calling it
with any index assigned to no record (stale or out of range) returns -1
and leaves the table unchanged. -/
theorem fg_index_after_enumeration (t0 : List Proc)
    (hnd : (tablePids t0).Nodup) :
    (∀ (k : Nat) (hk : k < t0.length),
        (process_print_list t0).2.get? k
            = some { t0.get ⟨k, hk⟩ with listId := (k : Int) }
        ∧ process_bring_to_fg (k : Int) (process_print_list t0).2
            = ((t0.get ⟨k, hk⟩).pid,
               ((process_print_list t0).2).eraseIdx k))
    ∧ (∀ idx : Int, (∀ k : Nat, k < t0.length → idx ≠ (k : Int)) →
        process_bring_to_fg idx (process_print_list t0).2
          = (-1, (process_print_list t0).2)) := by
  constructor
  · intro k hk
    have hget : t0.get? k = some (t0.get ⟨k, hk⟩) := List.get?_eq_get hk
    have h1 := print_loop_snd_get t0 0 k (t0.get ⟨k, hk⟩) hget
    rw [Int.zero_add] at h1
    have h1' : (process_print_list t0).2.get? k
        = some { t0.get ⟨k, hk⟩ with listId := (k : Int) } := h1
    refine ⟨h1', ?_⟩
    have hlen : (process_print_list t0).2.length = t0.length :=
      print_loop_snd_length t0 0
    have hne : (process_print_list t0).2 ≠ [] := by
      apply List.ne_nil_of_length_pos
      rw [hlen]
      omega
    have hfind : find_fg_loop (k : Int) (process_print_list t0).2
        = some { t0.get ⟨k, hk⟩ with listId := (k : Int) } := by
      have hf := print_loop_find t0 0 k (t0.get ⟨k, hk⟩) hget
      rw [Int.zero_add] at hf
      exact hf
    rw [bring_to_fg_found _ _ _ hne hfind]
    have hnd1 : (tablePids (process_print_list t0).2).Nodup := by
      rw [process_print_list, print_loop_snd_pids]
      exact hnd
    have herase := remove_loop_get_eraseIdx (process_print_list t0).2 k
      { t0.get ⟨k, hk⟩ with listId := (k : Int) } (t0.get ⟨k, hk⟩).pid
      h1' rfl hnd1
    rw [remove_ne_nil _ _ hne]
    rw [herase]
  · intro idx h
    cases ht : t0 with
    | nil => rfl
    | cons a l =>
      have hne : (process_print_list (a :: l)).2 ≠ [] := by
        apply List.ne_nil_of_length_pos
        rw [process_print_list, print_loop_snd_length]
        simp
      have hfind : find_fg_loop idx (process_print_list (a :: l)).2 = none := by
        apply print_loop_find_none
        intro k hk
        have h2 := h k (by rw [ht]; exact hk)
        simpa using h2
      rw [bring_to_fg_not_found _ _ hne hfind]

/-- Witness for Claim C1 at the concrete two-record table: index 1 of the
fresh enumeration removes exactly the second record and returns its pid. -/
theorem fg_index_after_enumeration_witness :
    process_bring_to_fg (1 : Int)
        (process_print_list [{ name := "a", pid := 5, listId := -1 },
                             { name := "b", pid := 7, listId := -1 }]).2
      = ((([{ name := "a", pid := 5, listId := -1 },
            { name := "b", pid := 7, listId := -1 }] : List Proc).get
            ⟨1, by decide⟩).pid,
         ((process_print_list [{ name := "a", pid := 5, listId := -1 },
                               { name := "b", pid := 7, listId := -1 }]).2).eraseIdx 1) :=
  ((fg_index_after_enumeration
      [{ name := "a", pid := 5, listId := -1 },
       { name := "b", pid := 7, listId := -1 }] (by decide)).1 1 (by decide)).2

/-- Claim C2: along any history of `process_add` / `process_remove_from_list`
operations whose inserted pids are fresh among the live records, every
intermediate table has pairwise-distinct pids, and the `jobs` enumeration
prints exactly the pids of the currently tracked records, in order. -/
theorem table_pid_uniqueness (ops : List TableOp)
    (hv : ops_pids_fresh [] ops = true) :
    ∀ pre suf : List TableOp, ops = pre ++ suf →
      (tablePids (apply_table_ops [] pre)).Nodup
      ∧ (process_print_list (apply_table_ops [] pre)).1.map (fun x => x.2.2)
          = tablePids (apply_table_ops [] pre) := by
  intro pre suf hsplit
  rw [hsplit] at hv
  refine ⟨?_, print_loop_fst_pids _ 0⟩
  exact nodup_after_ops pre [] (by simp [tablePids])
    (ops_pids_fresh_append pre suf [] hv)

/-- Witness for Claim C2: a concrete history of two fresh inserts followed
by a removal, observed after its first two operations. -/
theorem table_pid_uniqueness_witness :
    (tablePids (apply_table_ops []
        [TableOp.insert "a" 5, TableOp.insert "b" 7])).Nodup
      ∧ (process_print_list (apply_table_ops []
          [TableOp.insert "a" 5, TableOp.insert "b" 7])).1.map (fun x => x.2.2)
        = tablePids (apply_table_ops []
            [TableOp.insert "a" 5, TableOp.insert "b" 7]) :=
  table_pid_uniqueness
    [TableOp.insert "a" 5, TableOp.insert "b" 7, TableOp.removePid 5]
    (by decide)
    [TableOp.insert "a" 5, TableOp.insert "b" 7] [TableOp.removePid 5] rfl

/-- Claim C3: the claim says the result of `process_remove_from_list`
reports whether a matching record existed — false when no record matched.
The code contradicts this (and its own doc comment `-1: node not found`):
on the non-empty table holding only pid 5, removing pid 7 returns the
success code 0 while no record matched and nothing was removed. -/
theorem remove_nonmatching_reports_success :
    process_remove_from_list 7 [{ name := "a", pid := 5, listId := -1 }]
        = (0, [{ name := "a", pid := 5, listId := -1 }])
      ∧ (∀ r ∈ [({ name := "a", pid := 5, listId := -1 } : Proc)], r.pid ≠ 7)
      ∧ process_remove_from_list 7 ([] : List Proc) = (-1, []) := by
  decide

/-- Claim C5: the claim says a child launched for the "wait"/"sleep" debug
stand-in sleeps and exits, never returning to the caller's control flow.
The code instead executes `return 0` inside `execute` (shell.c:245), so
the child falls back into the shell's read loop: the child branch yields
`ChildResult.returned 0`, not a terminated or replaced process. -/
theorem sleep_child_returns_to_caller :
    execute_child (fun _ => true) "sleep" ["sleep", "1"]
        = Except.ok (ChildResult.returned 0)
      ∧ execute_child (fun _ => true) "wait" ["wait", "2"]
        = Except.ok (ChildResult.returned 0) :=
  ⟨rfl, rfl⟩

/-- Claim C6: the SIGINT handler runs in the shell process, so the pid it
obtains from `getpid()` and passes to `process_terminate_fg` is the very
identifier captured as `shell_id` at startup; `process_terminate_fg`
refuses to act on that identifier, hence the interrupt path issues no kill
at all. -/
theorem sigint_handler_never_kills (selfPid : Int) :
    signal_handler_sigint selfPid selfPid = none
      ∧ process_terminate_fg selfPid selfPid = none := by
  constructor <;> simp [signal_handler_sigint, process_terminate_fg]

/-- Witness for Claim C6 at the concrete shell pid 42. -/
theorem sigint_handler_never_kills_witness :
    signal_handler_sigint 42 42 = none ∧ process_terminate_fg 42 42 = none :=
  sigint_handler_never_kills 42

/-- Claim C7: the claim says the exit-time teardown drains every record and
leaves the table empty.  On the two-record table the loop instead frees
address 0 twice (`freed = [0, 0]`, a double free) and never removes the
record with pid 7: afterwards `process_list` still points at address 1,
whose record (pid 7) is still reachable. -/
theorem exit_teardown_leaves_record :
    execute_exit_heap 10 exit_two_job_table
        = some { cells := [(0, { next := some 1, name := "a", pid := 5, listId := -1 }),
                           (1, { next := none, name := "b", pid := 7, listId := -1 })],
                 freed := [0, 0],
                 processList := some 1 }
      ∧ (execute_exit_heap 10 exit_two_job_table).map
          (fun st => st.processList.bind
            (fun a => (readCell st.cells a).map HNode.pid)) = some (some 7) := by
  decide

/-- Claim C9: a record freshly created by `process_add` carries the
sentinel `list_id = -1`, the rest of the table is untouched, and before any
re-enumeration `process_bring_to_fg (-1)` finds that record first (it is
the head), removes exactly it, and returns its pid. -/
theorem fresh_record_sentinel_index (nm : String) (pid : Int) (bg : Int)
    (t : List Proc) :
    (process_add nm pid bg t).2 = { name := nm, pid := pid, listId := -1 } :: t
      ∧ ((process_add nm pid bg t).2.head?.map Proc.listId) = some (-1)
      ∧ process_bring_to_fg (-1) (process_add nm pid bg t).2 = (pid, t) := by
  refine ⟨rfl, rfl, ?_⟩
  simp [process_add, process_bring_to_fg, find_fg_loop,
    process_remove_from_list, remove_loop]

/-- Witness for Claim C9 at a concrete insertion into the empty table. -/
theorem fresh_record_sentinel_index_witness :
    (process_add "x" 42 1 ([] : List Proc)).2
        = [{ name := "x", pid := 42, listId := -1 }]
      ∧ ((process_add "x" 42 1 ([] : List Proc)).2.head?.map Proc.listId)
        = some (-1)
      ∧ process_bring_to_fg (-1) (process_add "x" 42 1 ([] : List Proc)).2
        = (42, []) :=
  fresh_record_sentinel_index "x" 42 1 []

/-- Claim C10: dispatching `fg` with no argument after the command (the C
`params[1] == NULL`) reaches `strtol(params[1], NULL, 10)` and dereferences
the null argument, and the "wait"/"sleep" stand-in in `execute` does the
same; with a second argument present both paths are total. -/
theorem fg_dispatch_requires_argument :
    execute_built_ins "fg" ["fg"] = Except.error CErr.nullDeref
      ∧ (∀ execOk : String → Bool,
          execute_child execOk "wait" ["wait"] = Except.error CErr.nullDeref
          ∧ execute_child execOk "sleep" ["sleep"] = Except.error CErr.nullDeref)
      ∧ (∀ s : String, ∀ rest : List String,
          execute_built_ins "fg" ("fg" :: s :: rest)
            = Except.ok (some (BuiltinEffect.fg (strtol_dec s))))
      ∧ (∀ execOk : String → Bool, ∀ s : String, ∀ rest : List String,
          execute_child execOk "sleep" ("sleep" :: s :: rest)
              = Except.ok (ChildResult.returned 0)
          ∧ execute_child execOk "wait" ("wait" :: s :: rest)
              = Except.ok (ChildResult.returned 0)) := by
  refine ⟨rfl, ?_, ?_, ?_⟩
  · intro execOk
    constructor <;> simp [execute_child]
  · intro s rest
    simp [execute_built_ins]
  · intro execOk s rest
    constructor <;> simp [execute_child]

/-- Claim C4 counterexample: launching `ls | wc` in the background where
the first-command child P2 has pid 100 and the intermediate process P1
itself has pid 200, the claim predicts the registered record
`{ name := "ls", pid := 200 }` (first command's name, P1's own pid); the
code (shell.c:359) instead registers `{ name := "wc", pid := 100 }` — the
second command's name with the already-exited first command's pid. -/
theorem pipe_registration_claim_false :
    (execute_pipe_p1 ["ls", "|", "wc"] 100 1 3 4 []).map Prod.snd
        = some [{ name := "wc", pid := 100, listId := -1 }]
      ∧ (execute_pipe_p1 ["ls", "|", "wc"] 100 1 3 4 []).map Prod.snd
        ≠ some [{ name := "ls", pid := 200, listId := -1 }] := by
  decide

/-- Claim C4 (amended): in a background pipeline the intermediate process
P1, after waiting for P2, registers P2's pid — the first command's
already-exited process — under the second command's display name, before
replacing its image with the second command. -/
theorem pipe_registration_registers_p2_under_cmd2 (args : List String)
    (cmd1 cmd2 : List String) (c2 : String) (pid2 : Int) (bg : Int)
    (r w : Nat) (t : List Proc)
    (hsplit : split_pipe_args args = some (cmd1, cmd2))
    (hc2 : cmd2.head? = some c2) (hbg : bg ≠ 0) :
    (execute_pipe_p1 args pid2 bg r w t).map Prod.snd
      = some ({ name := c2, pid := pid2, listId := -1 } :: t) := by
  simp [execute_pipe_p1, hsplit, hc2, hbg, process_add]

/-- Witness for the amended Claim C4 at the concrete background launch of
`ls | wc` with P2 pid 100. -/
theorem pipe_registration_registers_p2_under_cmd2_witness :
    (execute_pipe_p1 ["ls", "|", "wc"] 100 1 3 4 []).map Prod.snd
      = some [{ name := "wc", pid := 100, listId := -1 }] :=
  pipe_registration_registers_p2_under_cmd2 ["ls", "|", "wc"] ["ls"] ["wc"]
    "wc" 100 1 3 4 [] (by decide) (by decide) (by decide)

/-- Claim C8: in every trace of the intermediate pipeline process P1, the
blocking `waitpid` on P2 (the first command's process) occurs strictly
before the `execvp` that replaces P1's image with the second command: any
position holding the image-replacement event is preceded by a position
holding the wait on P2, so the first command has run to completion before
the second command starts; the two stages are never concurrent. -/
theorem pipe_wait_precedes_exec (args : List String) (pid2 : Int) (bg : Int)
    (r w : Nat) (t t2 : List Proc) (tr : List PEvent) (cmd : String) (j : Nat)
    (h : execute_pipe_p1 args pid2 bg r w t = some (tr, t2))
    (hj : tr.get? j = some (PEvent.execImage cmd)) :
    ∃ i : Nat, i < j ∧ tr.get? i = some (PEvent.waitFor pid2) := by
  rcases hs : split_pipe_args args with _ | p
  · rw [execute_pipe_p1, hs] at h
    simp at h
  rcases hh : p.2.head? with _ | c2
  · rw [execute_pipe_p1, hs] at h
    simp [hh] at h
  by_cases hbg : bg ≠ 0
  · have htr : tr = [PEvent.closeFd w, PEvent.dupToStdin r, PEvent.waitFor pid2,
        PEvent.register c2 pid2, PEvent.execImage c2] := by
      rw [execute_pipe_p1, hs] at h
      simp [hh, hbg] at h
      exact h.1.symm
    subst htr
    rcases j with _ | _ | _ | _ | _ | j
    · simp [List.get?] at hj
    · simp [List.get?] at hj
    · simp [List.get?] at hj
    · simp [List.get?] at hj
    · exact ⟨2, by omega, rfl⟩
    · simp [List.get?] at hj
  · have htr : tr = [PEvent.closeFd w, PEvent.dupToStdin r, PEvent.waitFor pid2,
        PEvent.execImage c2] := by
      rw [execute_pipe_p1, hs] at h
      simp [hh, hbg] at h
      exact h.1.symm
    subst htr
    rcases j with _ | _ | _ | _ | j
    · simp [List.get?] at hj
    · simp [List.get?] at hj
    · simp [List.get?] at hj
    · exact ⟨2, by omega, rfl⟩
    · simp [List.get?] at hj

/-- Witness for Claim C8 at the concrete background launch of `ls | wc`:
the image replacement sits at position 4 of P1's trace and the wait on P2
at position 2. -/
theorem pipe_wait_precedes_exec_witness :
    ∃ i : Nat, i < 4 ∧
      ([PEvent.closeFd 4, PEvent.dupToStdin 3, PEvent.waitFor 100,
        PEvent.register "wc" 100, PEvent.execImage "wc"].get? i
        = some (PEvent.waitFor 100)) :=
  pipe_wait_precedes_exec ["ls", "|", "wc"] 100 1 3 4 []
    [{ name := "wc", pid := 100, listId := -1 }]
    [PEvent.closeFd 4, PEvent.dupToStdin 3, PEvent.waitFor 100,
     PEvent.register "wc" 100, PEvent.execImage "wc"] "wc" 4
    (by decide) (by decide)

end SimpleShell
